import Mathlib

/-!
Shallow embedding of the `gts-validator` crate (GlobalTypeSystem/gts-rust).

The embedding follows the Rust sources:
  * `gts-validator/src/strategy/fs.rs`   — file discovery and file reading,
  * `gts-validator/src/format/yaml.rs`   — YAML scanning with per-document fallback,
  * `gts-validator/src/lib.rs`           — the `validate_fs` orchestrator,
  * `gts-validator/src/config.rs`        — configuration types,
  * `gts-validator/src/report.rs`        — the report type.

External collaborators (the real filesystem, the `serde_saphyr` YAML parser and
the `glob` crate, and the scanners whose sources are not part of the crate
snapshot) are passed in as explicit function parameters bundled in a `World`
structure, so that every definition stays executable.  Strings are modelled as
Lean `String`s; the character-level helpers below re-implement the handful of
Rust `str` operations the sources use (`lines`, `trim`, splitting, extensions)
structurally over `List Char`, so that all of them reduce inside the kernel.
-/

namespace Gts

/-- Split a character list at every occurrence of the separator `c`
(the separator is dropped; like Rust `str::split`). -/
def splitOnChar (c : Char) : List Char → List (List Char)
  | [] => [[]]
  | a :: t =>
    let r := splitOnChar c t
    if a = c then [] :: r
    else
      match r with
      | [] => [[a]]
      | g :: gs => (a :: g) :: gs

/-- ASCII whitespace test, standing in for Rust `char::is_whitespace`
(the inputs relevant here are ASCII). -/
def isWsChar (c : Char) : Bool := c == ' ' || c == '\t' || c == '\n' || c == '\r'

/-- Whitespace trimming of both ends, like Rust `str::trim`. -/
def trimChars (l : List Char) : List Char :=
  ((l.dropWhile isWsChar).reverse.dropWhile isWsChar).reverse

/-- `String` version of `trimChars`. -/
def strTrim (s : String) : String := ⟨trimChars s.data⟩

/-- Drop a final carriage return, as Rust `str::lines` does per line. -/
def stripCR (l : List Char) : List Char :=
  if l.getLast? = some '\r' then l.dropLast else l

/-- Rust `str::lines`: split at newlines, a final newline produces no
trailing empty line, and a trailing `\r` on each line is removed. -/
def rustLines (s : String) : List String :=
  let parts := splitOnChar '\n' s.data
  let parts := if parts.getLast? = some [] then parts.dropLast else parts
  parts.map (fun l => ⟨stripCR l⟩)

/-- Join lines with newlines, like Rust `Vec::join("\n")`. -/
def joinNL : List String → String
  | [] => ""
  | [l] => l
  | l :: ls => l ++ "\n" ++ joinNL ls

/-- Boolean lexicographic order on character lists (byte order on the
code points), standing in for the Rust `PathBuf`/`str` ordering used by
`Vec::sort`. -/
def leChars : List Char → List Char → Bool
  | [], _ => true
  | _ :: _, [] => false
  | a :: as, b :: bs => if a = b then leChars as bs else decide (a < b)

/-- Lexicographic order on strings. -/
def strLe (a b : String) : Bool := leChars a.data b.data

/-- Rust `str::ends_with`. -/
def strEndsWith (s sfx : String) : Bool := sfx.data.isSuffixOf s.data

/-- The final path component, standing in for Rust `Path::file_name`. -/
def fileName (p : String) : String := ⟨(splitOnChar '/' p.data).getLast?.getD []⟩

/-- Rust `Path::extension`: the suffix of the file name after its last `.`;
`none` when there is no `.` or when the only `.` is the leading one of a
hidden file. -/
def extension (p : String) : Option String :=
  match splitOnChar '.' (fileName p).data with
  | [] => none
  | [_] => none
  | [[], _] => none
  | parts => parts.getLast?.map (fun l => ⟨l⟩)

/-! ## Data model (`config.rs`, `report.rs`, `strategy/mod.rs`) -/

/-- Modelled from the spec: `error.rs` is not part of the source snapshot.
The spec gives a `ValidationError` as {file path, optional line/path context,
error kind, human-readable message, offending snippet}. -/
structure ValidationError where
  path : String
  location : Option String
  kind : String
  message : String
  snippet : String
deriving Repr, DecidableEq

/-- `ValidationReport` from `report.rs` (the Rust struct field names are kept
verbatim; the struct derives `Serialize` with no rename attributes, so these
are also its JSON keys). -/
structure ValidationReport where
  files_scanned : Nat
  errors_count : Nat
  ok : Bool
  errors : List ValidationError
deriving Repr, DecidableEq

/-- JSON keys of the serialized `ValidationReport`, in declaration order:
serde's derived `Serialize` uses each field's Rust name verbatim because
`report.rs` carries no `#[serde(rename)]` attribute. -/
def validationReportJsonKeys : List String :=
  ["files_scanned", "errors_count", "ok", "errors"]

/-- Core validation config from `config.rs`. -/
structure ValidationConfig where
  vendor : Option String
  scan_keys : Bool
  strict : Bool
  skip_tokens : List String

/-- Filesystem source options from `config.rs`. -/
structure FsSourceConfig where
  paths : List String
  exclude : List String
  max_file_size : Nat
  follow_links : Bool

/-- `ValidationItem` from `strategy/mod.rs` (declared in `fs.rs`'s imports;
the spec records it as {content: string}). -/
structure ValidationItem where
  content : String
deriving Repr, DecidableEq

/-- `ContentFormat` from `strategy/mod.rs`: the closed format variant
dispatched on by the orchestrator. -/
inductive ContentFormat where
  | markdown
  | json
  | yaml
deriving Repr, DecidableEq

/-- Generic JSON/YAML value tree (`serde_json::Value`); numbers are modelled
as integers, which is irrelevant here because no scanner inspects numbers. -/
inductive JValue where
  | null
  | bool (b : Bool)
  | num (n : Int)
  | str (s : String)
  | arr (xs : List JValue)
  | obj (kvs : List (String × JValue))

/-- The external collaborators of the crate, bundled as explicit functions:
the filesystem (`path.exists`, `is_file`, `is_dir`, `WalkDir`, `fs::metadata`,
`fs::read_to_string`), the `glob` crate's compiled patterns, the
`serde_saphyr` YAML parser, and the scanners whose sources are not part of
the snapshot (`format/json.rs`'s `walk_json_value` and `scan_json_content`,
`format/markdown.rs`'s `scan_markdown_content`). -/
structure World where
  pathExists : String → Bool
  isFile : String → Bool
  isDir : String → Bool
  walkDir : String → List String
  globNew : String → Option (String → Bool)
  metadata : String → Option Nat
  readToString : String → Option String
  parseYamlMulti : String → Option (List JValue)
  parseYamlOne : String → Option JValue
  walkValue : JValue → String → Option String → String → Bool → List ValidationError
  scanMarkdown : String → String → Option String → Bool → List String → List ValidationError
  scanJson : String → String → Option String → Bool → List ValidationError

/-! ## File discovery (`strategy/fs.rs`) -/

/-- `SKIP_FILES` from `fs.rs`: reserved and currently empty. -/
def SKIP_FILES : List String := []

/-- `matches_exclude` from `fs.rs`: a path is excluded when some compiled
pattern matches the whole path or its file name. -/
def matches_exclude (pats : List (String → Bool)) (path : String) : Bool :=
  pats.any (fun m => m path || m (fileName path))

/-- `matches_file_pattern` from `fs.rs`: the extension is one of
`md`, `json`, `yaml`, `yml`. -/
def matches_file_pattern (path : String) : Bool :=
  match extension path with
  | some "md" | some "json" | some "yaml" | some "yml" => true
  | _ => false

/-- `content_format_for` from `fs.rs`. -/
def content_format_for (path : String) : Option ContentFormat :=
  match extension path with
  | some "md" => some .markdown
  | some "json" => some .json
  | some "yaml" | some "yml" => some .yaml
  | _ => none

/-- Insert into a sorted list (the sorting step of Rust `Vec::sort`). -/
def insertSorted (a : String) : List String → List String
  | [] => [a]
  | b :: t => if strLe a b then a :: b :: t else b :: insertSorted a t

/-- `Vec::sort` on paths, modelled as insertion sort by `strLe`. -/
def sortStrings (l : List String) : List String := l.foldr insertSorted []

/-- `Vec::dedup`: remove consecutive duplicates. -/
def dedupConsec : List String → List String
  | [] => []
  | [a] => [a]
  | a :: b :: t => if a = b then dedupConsec (b :: t) else a :: dedupConsec (b :: t)

/-- `find_files` from `fs.rs`: gather matching files under each configured
path (regular files directly, directories through the walk provided by the
external `WalkDir`, both filtered by extension, exclude patterns and
`SKIP_FILES`), then `files.sort(); files.dedup();`. -/
def find_files (w : World) (cfg : FsSourceConfig) : List String :=
  let exclude_patterns := cfg.exclude.filterMap w.globNew
  let gathered := cfg.paths.flatMap (fun p =>
    if w.isFile p then
      if matches_file_pattern p && !(matches_exclude exclude_patterns p) then [p] else []
    else if w.isDir p then
      (w.walkDir p).filter (fun fp =>
        w.isFile fp && matches_file_pattern fp && !(matches_exclude exclude_patterns fp)
          && !(SKIP_FILES.any (fun sfx => strEndsWith fp sfx)))
    else [])
  dedupConsec (sortStrings gathered)

/-- `read_validation_item` from `fs.rs`: skip (return `none`) when the
metadata reports a size above `max_file_size`, when the path has no supported
format, or when reading the file fails. -/
def read_validation_item (w : World) (path : String) (max_file_size : Nat) :
    Option ValidationItem :=
  let sizeOk :=
    match w.metadata path with
    | some len => !(len > max_file_size)
    | none => true
  if sizeOk then
    (content_format_for path).bind (fun _ =>
      (w.readToString path).map (fun c => ⟨c⟩))
  else none

/-! ## YAML scanning (`format/yaml.rs`) -/

/-- The loop body of `split_yaml_documents` from `yaml.rs`: iterate over the
lines, flush the current document at every line whose trimmed content is
`---`, keeping only documents whose trimmed content is non-empty, and flush
once more at the end. -/
def split_docs_loop : List String → List String → List String → List String
  | docs, cur, [] =>
    let doc := joinNL cur
    if strTrim doc ≠ "" then docs ++ [doc] else docs
  | docs, cur, line :: rest =>
    if strTrim line = "---" then
      let doc := joinNL cur
      split_docs_loop (if strTrim doc ≠ "" then docs ++ [doc] else docs) [] rest
    else
      split_docs_loop docs (cur ++ [line]) rest

/-- `split_yaml_documents` from `yaml.rs`. -/
def split_yaml_documents (content : String) : List String :=
  split_docs_loop [] [] (rustLines content)

/-- `scan_yaml_content` from `yaml.rs`: parse the whole stream with
`serde_saphyr::from_multiple` and walk every document; on stream-level
failure, split the raw text with `split_yaml_documents`, parse each segment
independently with `serde_saphyr::from_str`, skip segments that fail, and
walk the rest.  The Rust code pushes each walk's errors into one `&mut Vec`,
which the fold reproduces by appending. -/
def scan_yaml_content (w : World) (content : String) (path : String)
    (vendor : Option String) (scan_keys : Bool) : List ValidationError :=
  match w.parseYamlMulti content with
  | none =>
    (split_yaml_documents content).foldl (fun errors seg =>
      match w.parseYamlOne seg with
      | none => errors
      | some value => errors ++ w.walkValue value path vendor "$" scan_keys) []
  | some documents =>
    documents.foldl (fun errors value =>
      errors ++ w.walkValue value path vendor "$" scan_keys) []

/-! ## The orchestrator (`lib.rs`) -/

/-- The scanner dispatch of `validate_fs` (`lib.rs`, the match on
`content_format_for`). -/
def scan_dispatch (w : World) (vc : ValidationConfig) (file_path : String)
    (fmt : ContentFormat) (item : ValidationItem) : List ValidationError :=
  match fmt with
  | .markdown => w.scanMarkdown item.content file_path vc.vendor vc.strict vc.skip_tokens
  | .json => w.scanJson item.content file_path vc.vendor vc.scan_keys
  | .yaml => scan_yaml_content w item.content file_path vc.vendor vc.scan_keys

/-- One iteration of the `for file_path in &files` loop of `validate_fs`:
skip files `read_validation_item` rejects and files without a format, and
otherwise bump the scanned counter and append the scanner's errors. -/
def validate_step (w : World) (fsc : FsSourceConfig) (vc : ValidationConfig)
    (acc : Nat × List ValidationError) (file_path : String) :
    Nat × List ValidationError :=
  match read_validation_item w file_path fsc.max_file_size with
  | none => acc
  | some item =>
    match content_format_for file_path with
    | none => acc
    | some fmt => (acc.1 + 1, acc.2 ++ scan_dispatch w vc file_path fmt item)

/-- `validate_fs` from `lib.rs`: bail out on an empty path list or on the
first configured path that does not exist, return the empty report when no
files are found, and otherwise fold the per-file loop and build the report. -/
def validate_fs (w : World) (fsc : FsSourceConfig) (vc : ValidationConfig) :
    Except String ValidationReport :=
  if fsc.paths.isEmpty then .error "No paths provided for validation"
  else
    match fsc.paths.find? (fun p => !(w.pathExists p)) with
    | some p => .error ("Path does not exist: " ++ p)
    | none =>
      let files := find_files w fsc
      if files.isEmpty then
        .ok ⟨0, 0, true, []⟩
      else
        let result := files.foldl (validate_step w fsc vc) (0, [])
        .ok ⟨result.1, result.2.length, result.2.isEmpty, result.2⟩

/-- Whether `validate_fs` counts a file as scanned: `read_validation_item`
succeeds and the file has a matching scanner. -/
def should_scan (w : World) (fsc : FsSourceConfig) (file_path : String) : Bool :=
  (read_validation_item w file_path fsc.max_file_size).isSome
    && (content_format_for file_path).isSome

/-- The errors `validate_fs` collects for one file: none when the file is
skipped, otherwise the dispatched scanner's output. -/
def file_scan_errors (w : World) (fsc : FsSourceConfig) (vc : ValidationConfig)
    (file_path : String) : List ValidationError :=
  match read_validation_item w file_path fsc.max_file_size with
  | none => []
  | some item =>
    match content_format_for file_path with
    | none => []
    | some fmt => scan_dispatch w vc file_path fmt item

/-! ## Identifier grammar and tree walker

The grammar module and the JSON tree walker (`format/json.rs`,
`format/markdown.rs` and the modules behind them) are not part of the source
snapshot; only their callers and the crate's tests are.  They are therefore
modelled from the spec (§4.1–§4.4), as the definitions below record. -/

/-- Discovery mode (spec §3): `StrictSpecOnly` surfaces only well-formed
tokens, `Heuristic` surfaces all `gts.`-prefixed tokens. -/
inductive DiscoveryMode where
  | StrictSpecOnly
  | Heuristic
deriving Repr, DecidableEq

/-- Vendor policy (spec §3): accept any vendor, or require a fixed one. -/
inductive VendorPolicy where
  | Any
  | MustMatch (vendor : String)
deriving Repr, DecidableEq

/-- One identifier segment (spec §3; the spec field `namespace` is spelled
`nspace` because `namespace` is a Lean keyword). -/
structure Segment where
  vendor : String
  package : String
  nspace : String
  type : String
  version : String
deriving Repr, DecidableEq

/-- Characters permitted in grammar fields (spec §4.1/§9: alphanumeric plus
underscore; hyphens forbidden). -/
def isIdentChar (c : Char) : Bool := c.isAlphanum || c == '_'

/-- A non-empty run of permitted field characters. -/
def isFieldStr (s : String) : Bool := !s.data.isEmpty && s.data.all isIdentChar

/-- A non-empty digit run. -/
def isDigitRun (l : List Char) : Bool := !l.isEmpty && l.all Char.isDigit

/-- Version shape `v<digits>(.<digits>)?` (spec §3/§6). -/
def isVersionStr (s : String) : Bool :=
  match s.data with
  | 'v' :: rest =>
    match splitOnChar '.' rest with
    | [d] => isDigitRun d
    | [d1, d2] => isDigitRun d1 && isDigitRun d2
    | _ => false
  | _ => false

/-- Whether a string starts with the literal `gts.`. -/
def gtsDotPrefixed (s : String) : Bool := ['g', 't', 's', '.'].isPrefixOf s.data

/-- Strip a leading `gts.`. -/
def dropGtsDot (s : String) : String := ⟨s.data.drop 4⟩

/-- Modelled from the spec: the grammar's segment parsing (§4.1) is not part
of the source snapshot.  A `~`-free piece must split into exactly the five
dot-separated fields vendor, package, namespace, type, version; since the
version may itself contain a dot (`v<digits>.<digits>`), a six-run split
whose last two runs form the version is also accepted.  On the first piece an
optional leading `gts.` is stripped first. -/
def parse_piece (isFirst : Bool) (piece : String) : Option Segment :=
  let body := if isFirst && gtsDotPrefixed piece then dropGtsDot piece else piece
  let fields := (splitOnChar '.' body.data).map (fun l => (⟨l⟩ : String))
  match fields with
  | [v, p, n, t, ver] =>
    if isFieldStr v && isFieldStr p && isFieldStr n && isFieldStr t && isVersionStr ver
    then some ⟨v, p, n, t, ver⟩ else none
  | [v, p, n, t, v1, v2] =>
    if isFieldStr v && isFieldStr p && isFieldStr n && isFieldStr t
        && isVersionStr (v1 ++ "." ++ v2)
    then some ⟨v, p, n, t, v1 ++ "." ++ v2⟩ else none
  | _ => none

/-- Parse a list of pieces, the first one with `gts.`-stripping enabled. -/
def parse_pieces : Bool → List String → Option (List Segment)
  | _, [] => some []
  | isFirst, p :: rest =>
    match parse_piece isFirst p with
    | none => none
    | some seg =>
      match parse_pieces false rest with
      | none => none
      | some segs => some (seg :: segs)

/-- Modelled from the spec (§4.1): split the candidate on `~`, require and
discard the trailing empty piece after the final `~`, require at least one
remaining piece, and parse every piece; any failing piece makes the whole
candidate malformed. -/
def parse_chain (s : String) : Option (List Segment) :=
  let pieces := (splitOnChar '~' s.data).map (fun l => (⟨l⟩ : String))
  match pieces.getLast? with
  | some "" =>
    let body := pieces.dropLast
    if body.isEmpty then none else parse_pieces true body
  | _ => none

/-- Modelled from the spec (§3 invariant, §6): a well-formed identifier
chain starts with the literal `gts.` and parses segment by segment. -/
def is_well_formed (s : String) : Bool :=
  gtsDotPrefixed s && (parse_chain s).isSome

/-- Modelled from the spec (§4.1 Heuristic mode): the
`<ident>.<ident>.<ident>.<ident>.<ident>~` shape of a continuation-segment
run — the candidate contains a `~` and the part before the first `~` is five
non-empty dot-separated runs. -/
def continuation_shape (s : String) : Bool :=
  match splitOnChar '~' s.data with
  | first :: _ :: _ =>
    (splitOnChar '.' first).length == 5
      && (splitOnChar '.' first).all (fun l => !l.isEmpty)
  | _ => false

/-- Grammar verdict on a discovered candidate (spec §4.1 contract). -/
inductive IdClass where
  | parsed (segs : List Segment)
  | malformed
deriving Repr, DecidableEq

/-- Modelled from the spec (§4.1, contract
`classify(candidate, mode) -> Option<ParsedIdentifier | MalformedIdentifier>`):
a candidate that is exactly `*` is never classified; `StrictSpecOnly` only
surfaces candidates already matching the full well-formed pattern;
`Heuristic` surfaces every `gts.`-prefixed or continuation-shaped candidate
and classifies those that fail to parse as malformed. -/
def classify (s : String) (m : DiscoveryMode) : Option IdClass :=
  if s == "*" then none
  else
    let wf := if is_well_formed s then parse_chain s else none
    match m with
    | .StrictSpecOnly => wf.map .parsed
    | .Heuristic =>
      if gtsDotPrefixed s || continuation_shape s then
        match wf with
        | some segs => some (.parsed segs)
        | none => some .malformed
      else none

/-- Modelled from the spec (§4.2): `Any` always succeeds; `MustMatch`
reports a mismatch naming the offending segment's vendor, for every segment
whose vendor differs from the expected one. -/
def vendor_check (vp : VendorPolicy) (loc : String) (snippet : String)
    (segs : List Segment) : List ValidationError :=
  match vp with
  | .Any => []
  | .MustMatch expected =>
    (segs.filter (fun g => g.vendor ≠ expected)).map (fun g =>
      ⟨"", some loc, "vendor_mismatch",
        "Vendor mismatch: expected " ++ expected ++ ", found " ++ g.vendor,
        snippet⟩)

/-- Modelled from the spec (§4.3/§4.4 classification step): an undiscovered
candidate yields nothing, a malformed one a parse error, a well-formed one
its vendor-check result. -/
def errors_for_candidate (m : DiscoveryMode) (vp : VendorPolicy) (loc : String)
    (s : String) : List ValidationError :=
  match classify s m with
  | none => []
  | some .malformed =>
    [⟨"", some loc, "malformed_identifier", "Malformed GTS identifier", s⟩]
  | some (.parsed segs) => vendor_check vp loc s segs

/-- Modelled from the spec (§4.4 wildcard/context exception): a string value
containing `*` — covering both the bare `*` and filter patterns such as
`gts.x.core.*`. -/
def wildcard_value : JValue → Bool
  | .str s => s.data.any (fun c => c == '*')
  | _ => false

mutual

/-- Modelled from the spec: `format/json.rs`'s `walk_json_value` is not part
of the source snapshot.  Spec §4.4: strings are candidates; object keys are
candidates only under `scan_keys`; arrays are visited positionally; a key
literally named `x-gts-ref` with a wildcard string value exempts that value
from checking; other scalars are never classified.  The location context is
the JSON-Pointer-like path accumulated during the walk. -/
def walk_json_value (m : DiscoveryMode) (vp : VendorPolicy) (sk : Bool)
    (jp : String) : JValue → List ValidationError
  | .null => []
  | .bool _ => []
  | .num _ => []
  | .str s => errors_for_candidate m vp jp s
  | .arr xs => walk_arr m vp sk jp 0 xs
  | .obj kvs => walk_obj m vp sk jp kvs

/-- Array elements are visited positionally with path suffix `[i]`
(spec §4.4). -/
def walk_arr (m : DiscoveryMode) (vp : VendorPolicy) (sk : Bool)
    (jp : String) : Nat → List JValue → List ValidationError
  | _, [] => []
  | i, x :: xs =>
    walk_json_value m vp sk (jp ++ "[" ++ toString i ++ "]") x
      ++ walk_arr m vp sk jp (i + 1) xs

/-- Object entries: the key is a candidate only under `scan_keys`; the value
is skipped entirely when the key is `x-gts-ref` and the value is a wildcard
pattern (spec §4.4). -/
def walk_obj (m : DiscoveryMode) (vp : VendorPolicy) (sk : Bool)
    (jp : String) : List (String × JValue) → List ValidationError
  | [] => []
  | (k, v) :: rest =>
    (if sk then errors_for_candidate m vp jp k else [])
      ++ (if k == "x-gts-ref" && wildcard_value v then []
          else walk_json_value m vp sk (jp ++ "/" ++ k) v)
      ++ walk_obj m vp sk jp rest

end

/-! ## Order lemmas for the path sort -/

theorem leChars_trans : ∀ {a b c : List Char},
    leChars a b = true → leChars b c = true → leChars a c = true := by
  intro a
  induction a with
  | nil => intro b c _ _; rfl
  | cons x xs ih =>
    intro b c h1 h2
    cases b with
    | nil => simp [leChars] at h1
    | cons y ys =>
      cases c with
      | nil => simp [leChars] at h2
      | cons z zs =>
        simp only [leChars] at h1 h2 ⊢
        by_cases hxy : x = y
        · subst hxy
          simp only [if_pos rfl] at h1
          by_cases hyz : x = z
          · subst hyz
            simp only [if_pos rfl] at h2 ⊢
            exact ih h1 h2
          · simp only [if_neg hyz] at h2 ⊢
            exact h2
        · simp only [if_neg hxy] at h1
          have hlt1 : x < y := of_decide_eq_true h1
          by_cases hyz : y = z
          · rw [← hyz]
            simp only [if_neg hxy]
            exact decide_eq_true hlt1
          · simp only [if_neg hyz] at h2
            have hlt2 : y < z := of_decide_eq_true h2
            have hlt : x < z := lt_trans hlt1 hlt2
            simp only [if_neg (ne_of_lt hlt)]
            exact decide_eq_true hlt

theorem leChars_total : ∀ a b : List Char, leChars a b = true ∨ leChars b a = true := by
  intro a
  induction a with
  | nil => intro b; left; rfl
  | cons x xs ih =>
    intro b
    cases b with
    | nil => right; rfl
    | cons y ys =>
      simp only [leChars]
      by_cases hxy : x = y
      · subst hxy
        simp only [if_pos rfl]
        exact ih ys
      · rcases lt_or_gt_of_ne hxy with h | h
        · left; simp only [if_neg hxy]; exact decide_eq_true h
        · right; simp only [if_neg (Ne.symm hxy)]; exact decide_eq_true h

theorem leChars_antisymm : ∀ {a b : List Char},
    leChars a b = true → leChars b a = true → a = b := by
  intro a
  induction a with
  | nil =>
    intro b _ h2
    cases b with
    | nil => rfl
    | cons y ys => simp [leChars] at h2
  | cons x xs ih =>
    intro b h1 h2
    cases b with
    | nil => simp [leChars] at h1
    | cons y ys =>
      simp only [leChars] at h1 h2
      by_cases hxy : x = y
      · subst hxy
        simp only [if_pos rfl] at h1 h2
        exact congrArg (x :: ·) (ih h1 h2)
      · simp only [if_neg hxy, if_neg (Ne.symm hxy)] at h1 h2
        exact absurd (of_decide_eq_true h2) (lt_asymm (of_decide_eq_true h1))

theorem strLe_trans {a b c : String} (h1 : strLe a b = true) (h2 : strLe b c = true) :
    strLe a c = true := leChars_trans h1 h2

theorem strLe_total (a b : String) : strLe a b = true ∨ strLe b a = true :=
  leChars_total a.data b.data

theorem strLe_antisymm {a b : String} (h1 : strLe a b = true) (h2 : strLe b a = true) :
    a = b := by
  cases a with
  | mk la =>
    cases b with
    | mk lb => exact congrArg String.mk (leChars_antisymm h1 h2)

theorem mem_insertSorted {x a : String} : ∀ {l : List String},
    x ∈ insertSorted a l ↔ x = a ∨ x ∈ l := by
  intro l
  induction l with
  | nil => simp [insertSorted]
  | cons b t ih =>
    simp only [insertSorted]
    by_cases h : strLe a b = true
    · simp only [if_pos h, List.mem_cons]
    · simp only [if_neg h, List.mem_cons, ih]
      tauto

theorem pairwise_insertSorted (a : String) {l : List String}
    (h : l.Pairwise (fun u v => strLe u v = true)) :
    (insertSorted a l).Pairwise (fun u v => strLe u v = true) := by
  induction l with
  | nil => simp [insertSorted]
  | cons b t ih =>
    rw [List.pairwise_cons] at h
    simp only [insertSorted]
    by_cases hab : strLe a b = true
    · rw [if_pos hab, List.pairwise_cons]
      refine ⟨?_, List.pairwise_cons.mpr h⟩
      intro x hx
      rcases List.mem_cons.mp hx with hxb | hxt
      · subst hxb; exact hab
      · exact strLe_trans hab (h.1 x hxt)
    · rw [if_neg hab, List.pairwise_cons]
      refine ⟨?_, ih h.2⟩
      intro x hx
      rcases mem_insertSorted.mp hx with hxa | hxt
      · show strLe b x = true
        rw [hxa]
        rcases strLe_total a b with hba | hba
        · exact absurd hba hab
        · exact hba
      · exact h.1 x hxt

theorem pairwise_sortStrings (l : List String) :
    (sortStrings l).Pairwise (fun u v => strLe u v = true) := by
  unfold sortStrings
  induction l with
  | nil => simp
  | cons a t ih => exact pairwise_insertSorted a ih

theorem dedupConsec_sublist : ∀ l : List String, List.Sublist (dedupConsec l) l := by
  intro l
  induction l with
  | nil => simp [dedupConsec]
  | cons a t ih =>
    cases t with
    | nil => simp [dedupConsec]
    | cons b t' =>
      rw [dedupConsec]
      by_cases hab : a = b
      · rw [if_pos hab]
        exact (ih).trans (List.sublist_cons_self a (b :: t'))
      · rw [if_neg hab]
        exact ih.cons₂ a

theorem pairwise_dedupConsec {l : List String}
    (h : l.Pairwise (fun u v => strLe u v = true)) :
    (dedupConsec l).Pairwise (fun u v => strLe u v = true) :=
  h.sublist (dedupConsec_sublist l)

theorem nodup_dedupConsec : ∀ {l : List String},
    l.Pairwise (fun u v => strLe u v = true) → (dedupConsec l).Nodup := by
  intro l
  induction l with
  | nil => intro _; simp [dedupConsec]
  | cons a t ih =>
    intro h
    cases t with
    | nil => simp [dedupConsec]
    | cons b t' =>
      rw [List.pairwise_cons] at h
      rw [dedupConsec]
      by_cases hab : a = b
      · rw [if_pos hab]
        exact ih h.2
      · rw [if_neg hab, List.nodup_cons]
        refine ⟨?_, ih h.2⟩
        intro hmem
        have hat : a ∈ b :: t' := (dedupConsec_sublist (b :: t')).subset hmem
        rcases List.mem_cons.mp hat with h1 | h1
        · exact hab h1
        · have hba : strLe b a = true := (List.pairwise_cons.mp h.2).1 a h1
          have hab' : strLe a b = true := h.1 b (List.mem_cons_self b t')
          exact hab (strLe_antisymm hab' hba)

/-! ## Characterization of the orchestrator loop -/

theorem validate_loop_spec (w : World) (fsc : FsSourceConfig) (vc : ValidationConfig) :
    ∀ (files : List String) (n : Nat) (es : List ValidationError),
      files.foldl (validate_step w fsc vc) (n, es)
        = (n + files.countP (should_scan w fsc),
           es ++ files.flatMap (file_scan_errors w fsc vc)) := by
  intro files
  induction files with
  | nil => intro n es; simp
  | cons f fs ih =>
    intro n es
    rw [List.foldl_cons]
    rcases hr : read_validation_item w f fsc.max_file_size with _ | item
    · have hstep : validate_step w fsc vc (n, es) f = (n, es) := by
        simp [validate_step, hr]
      have hscan : should_scan w fsc f = false := by
        simp [should_scan, hr]
      have herr : file_scan_errors w fsc vc f = [] := by
        simp [file_scan_errors, hr]
      rw [hstep, ih, List.countP_cons, hscan, List.flatMap_cons, herr]
      simp
    · rcases hf : content_format_for f with _ | fmt
      · have hstep : validate_step w fsc vc (n, es) f = (n, es) := by
          simp [validate_step, hr, hf]
        have hscan : should_scan w fsc f = false := by
          simp [should_scan, hf]
        have herr : file_scan_errors w fsc vc f = [] := by
          simp [file_scan_errors, hr, hf]
        rw [hstep, ih, List.countP_cons, hscan, List.flatMap_cons, herr]
        simp
      · have hstep : validate_step w fsc vc (n, es) f
            = (n + 1, es ++ scan_dispatch w vc f fmt item) := by
          simp [validate_step, hr, hf]
        have hscan : should_scan w fsc f = true := by
          simp [should_scan, hr, hf]
        have herr : file_scan_errors w fsc vc f = scan_dispatch w vc f fmt item := by
          simp [file_scan_errors, hr, hf]
        rw [hstep, ih, List.countP_cons, hscan, List.flatMap_cons, herr]
        refine Prod.ext ?_ ?_
        · simp; omega
        · simp [List.append_assoc]

/-! ## Characterization of the YAML fallback fold -/

theorem yaml_fold_spec (w : World) (path : String) (vendor : Option String) (sk : Bool) :
    ∀ (segs : List String) (init : List ValidationError),
      segs.foldl (fun errors seg =>
          match w.parseYamlOne seg with
          | none => errors
          | some value => errors ++ w.walkValue value path vendor "$" sk) init
        = init ++ segs.flatMap (fun seg =>
            match w.parseYamlOne seg with
            | none => []
            | some value => w.walkValue value path vendor "$" sk) := by
  intro segs
  induction segs with
  | nil => intro init; simp
  | cons s t ih =>
    intro init
    rw [List.foldl_cons, List.flatMap_cons]
    rcases h : w.parseYamlOne s with _ | v
    · simp only [ih, List.nil_append]
    · simp only [ih, List.append_assoc]

/-! ## Characterization of the YAML document split -/

/-- Grouping of lines at separators chosen by the predicate `p`:
the foundation both for the claimed split (separator = a line exactly `---`)
and for the actual split (separator = a line trimming to `---`). -/
def linesGroups (p : String → Bool) : List String → List (List String)
  | [] => [[]]
  | l :: ls =>
    let gs := linesGroups p ls
    if p l then [] :: gs
    else
      match gs with
      | [] => [[l]]
      | g :: t => (l :: g) :: t

theorem linesGroups_ne_nil (p : String → Bool) :
    ∀ ls : List String, linesGroups p ls ≠ [] := by
  intro ls
  cases ls with
  | nil => simp [linesGroups]
  | cons l ls' =>
    simp only [linesGroups]
    by_cases h : p l = true
    · simp [h]
    · simp only [Bool.not_eq_true] at h
      simp only [h]
      rcases linesGroups p ls' with _ | ⟨g, t⟩ <;> simp

/-- Prepend pending lines to the first group. -/
def consHead (cur : List String) : List (List String) → List (List String)
  | [] => [cur]
  | g :: t => (cur ++ g) :: t

theorem split_docs_loop_spec :
    ∀ (lines docs cur : List String),
      split_docs_loop docs cur lines
        = docs ++ ((consHead cur (linesGroups (fun l => strTrim l == "---") lines)).map
            joinNL).filter (fun d => decide (strTrim d ≠ "")) := by
  intro lines
  induction lines with
  | nil =>
    intro docs cur
    simp only [split_docs_loop, linesGroups, consHead, List.append_nil, List.map_cons,
      List.map_nil, List.filter]
    by_cases h : strTrim (joinNL cur) = ""
    · simp [h]
    · simp [h]
  | cons line rest ih =>
    intro docs cur
    rw [split_docs_loop]
    by_cases hsep : strTrim line = "---"
    · rw [if_pos hsep]
      rw [ih]
      have hgs : ∃ g t, linesGroups (fun l => strTrim l == "---") rest = g :: t := by
        rcases h : linesGroups (fun l => strTrim l == "---") rest with _ | ⟨g, t⟩
        · exact absurd h (linesGroups_ne_nil _ rest)
        · exact ⟨g, t, rfl⟩
      rcases hgs with ⟨g, t, hgt⟩
      have hlg : linesGroups (fun l => strTrim l == "---") (line :: rest)
          = [] :: g :: t := by
        simp only [linesGroups, hgt]
        rw [if_pos (by simp [hsep])]
      rw [hlg, hgt]
      simp only [consHead, List.nil_append, List.append_nil, List.map_cons, List.filter]
      by_cases h : strTrim (joinNL cur) = ""
      · simp [h]
      · simp [h, List.append_assoc]
    · rw [if_neg hsep]
      rw [ih]
      have hgs : ∃ g t, linesGroups (fun l => strTrim l == "---") rest = g :: t := by
        rcases h : linesGroups (fun l => strTrim l == "---") rest with _ | ⟨g, t⟩
        · exact absurd h (linesGroups_ne_nil _ rest)
        · exact ⟨g, t, rfl⟩
      rcases hgs with ⟨g, t, hgt⟩
      have hlg : linesGroups (fun l => strTrim l == "---") (line :: rest)
          = (line :: g) :: t := by
        simp only [linesGroups, hgt]
        rw [if_neg (by simp [hsep])]
      rw [hlg, hgt]
      simp only [consHead]
      have : cur ++ [line] ++ g = cur ++ line :: g := by
        simp
      rw [this]

/-! ## The two readings of the YAML document split -/

/-- The split behavior described by the spec sentence, as its own
definition, for comparison with `split_yaml_documents`: documents are cut
exactly at lines that are exactly `---`, and only an all-blank leading or
trailing document is dropped. -/
def split_yaml_documents_claimed (content : String) : List String :=
  let docs := (linesGroups (fun l => l == "---") (rustLines content)).map joinNL
  let docs :=
    match docs with
    | d :: rest => if strTrim d = "" then rest else d :: rest
    | [] => []
  match docs.getLast? with
  | some d => if strTrim d = "" then docs.dropLast else docs
  | none => docs

/-- The amended split behavior: documents are cut at lines whose
whitespace-trimmed content is `---`, and every all-blank document — leading,
middle or trailing — is dropped. -/
def split_yaml_documents_amended (content : String) : List String :=
  ((linesGroups (fun l => strTrim l == "---") (rustLines content)).map joinNL).filter
    (fun d => decide (strTrim d ≠ ""))

/-- C8 (counterexample): `split_yaml_documents` does not match the claimed
split.  A line `" ---"` that merely trims to `---` still cuts (first input),
and an all-blank middle document is also dropped (second input). -/
theorem split_exact_dash_counterexample :
    split_yaml_documents "a\n ---\nb" ≠ split_yaml_documents_claimed "a\n ---\nb"
    ∧ split_yaml_documents "a\n---\n\n---\nb"
        ≠ split_yaml_documents_claimed "a\n---\n\n---\nb"
    ∧ split_yaml_documents "a\n ---\nb" = ["a", "b"]
    ∧ split_yaml_documents_claimed "a\n ---\nb" = ["a\n ---\nb"]
    ∧ split_yaml_documents "a\n---\n\n---\nb" = ["a", "b"]
    ∧ split_yaml_documents_claimed "a\n---\n\n---\nb" = ["a", "", "b"] := by
  refine ⟨by decide, by decide, by decide, by decide, by decide, by decide⟩

/-- C8 (amended): in the YAML fallback path the raw text is split into
documents on lines whose whitespace-trimmed content is exactly `---`, and
every all-blank document — leading, middle or trailing — is dropped before
the remaining segments are parsed. -/
theorem split_yaml_documents_amended_correct (content : String) :
    split_yaml_documents content = split_yaml_documents_amended content := by
  unfold split_yaml_documents split_yaml_documents_amended
  rw [split_docs_loop_spec]
  have hgs : ∃ g t, linesGroups (fun l => strTrim l == "---") (rustLines content)
      = g :: t := by
    rcases h : linesGroups (fun l => strTrim l == "---") (rustLines content) with _ | ⟨g, t⟩
    · exact absurd h (linesGroups_ne_nil _ (rustLines content))
    · exact ⟨g, t, rfl⟩
  rcases hgs with ⟨g, t, hgt⟩
  rw [hgt]
  simp [consHead]

/-- C9: the serialized report's file-count key is `files_scanned`, the
field name of `report.rs`'s `ValidationReport` (serde derive, no rename);
the key `scanned_files` asserted by the crate's own CLI tests does not
occur. -/
theorem report_json_field_names :
    validationReportJsonKeys = ["files_scanned", "errors_count", "ok", "errors"]
    ∧ "files_scanned" ∈ validationReportJsonKeys
    ∧ "scanned_files" ∉ validationReportJsonKeys := by
  refine ⟨rfl, by decide, by decide⟩

/-! ## Orchestrator theorems -/

/-- C5: `validate_fs` returns a hard error (no report) exactly when the
configured path list is empty or some configured path does not exist. -/
theorem validate_fs_hard_error_iff (w : World) (fsc : FsSourceConfig)
    (vc : ValidationConfig) :
    (∃ e, validate_fs w fsc vc = .error e)
      ↔ (fsc.paths = [] ∨ ∃ p ∈ fsc.paths, w.pathExists p = false) := by
  unfold validate_fs
  by_cases hE : fsc.paths.isEmpty = true
  · simp only [hE, if_true]
    constructor
    · intro _
      exact Or.inl (List.isEmpty_iff.mp hE)
    · intro _
      exact ⟨"No paths provided for validation", rfl⟩
  · simp only [hE, if_false]
    rcases hF : fsc.paths.find? (fun p => !(w.pathExists p)) with _ | p
    · constructor
      · intro ⟨e, he⟩
        by_cases hFiles : (find_files w fsc).isEmpty = true <;>
          simp [hFiles] at he
      · intro h
        rcases h with h | ⟨p, hp, hpe⟩
        · exact absurd (List.isEmpty_iff.mpr h) hE
        · have := List.find?_eq_none.mp hF p hp
          rw [hpe] at this
          simp at this
    · constructor
      · intro _
        refine Or.inr ⟨p, List.mem_of_find?_eq_some hF, ?_⟩
        have := List.find?_some hF
        simpa using this
      · intro _
        exact ⟨"Path does not exist: " ++ p, rfl⟩

/-- C6: every report returned by `validate_fs` satisfies
`errors_count = errors.length` and `ok = errors.isEmpty`; in particular a
non-empty error list forces `ok = false`. -/
theorem report_counts_consistent (w : World) (fsc : FsSourceConfig)
    (vc : ValidationConfig) (r : ValidationReport)
    (h : validate_fs w fsc vc = .ok r) :
    r.errors_count = r.errors.length ∧ r.ok = r.errors.isEmpty
      ∧ (r.errors ≠ [] → r.ok = false) := by
  unfold validate_fs at h
  by_cases hE : fsc.paths.isEmpty = true
  · simp [hE] at h
  · rw [if_neg hE] at h
    rcases hF : fsc.paths.find? (fun p => !(w.pathExists p)) with _ | p
    · rw [hF] at h
      by_cases hFiles : (find_files w fsc).isEmpty = true
      · rw [if_pos hFiles] at h
        simp only [Except.ok.injEq] at h
        subst h
        refine ⟨rfl, rfl, ?_⟩
        intro hne
        simp at hne
      · rw [if_neg hFiles] at h
        simp only [Except.ok.injEq] at h
        subst h
        refine ⟨rfl, rfl, ?_⟩
        intro hne
        simpa using hne
    · rw [hF] at h
      simp at h

/-- C10: when the path list is non-empty, every configured path exists, and
no scannable file is found, `validate_fs` succeeds with the all-zero report. -/
theorem empty_scan_ok_report (w : World) (fsc : FsSourceConfig)
    (vc : ValidationConfig) (hne : fsc.paths ≠ [])
    (hex : ∀ p ∈ fsc.paths, w.pathExists p = true)
    (hempty : find_files w fsc = []) :
    validate_fs w fsc vc = .ok ⟨0, 0, true, []⟩ := by
  unfold validate_fs
  have hE : ¬ fsc.paths.isEmpty = true := by
    simp only [List.isEmpty_iff]
    exact hne
  rw [if_neg hE]
  have hF : fsc.paths.find? (fun p => !(w.pathExists p)) = none := by
    refine List.find?_eq_none.mpr ?_
    intro p hp
    simp [hex p hp]
  rw [hF]
  simp [hempty]

/-- C7: the file list produced by `find_files` is lexicographically sorted
and duplicate-free, and the report's error list is the in-order
concatenation of each file's scanner output. -/
theorem files_sorted_errors_in_order (w : World) (fsc : FsSourceConfig)
    (vc : ValidationConfig) :
    (find_files w fsc).Pairwise (fun u v => strLe u v = true)
    ∧ (find_files w fsc).Nodup
    ∧ ∀ r, validate_fs w fsc vc = .ok r →
        r.errors = (find_files w fsc).flatMap (file_scan_errors w fsc vc) := by
  refine ⟨?_, ?_, ?_⟩
  · show (dedupConsec (sortStrings _)).Pairwise _
    exact pairwise_dedupConsec (pairwise_sortStrings _)
  · show (dedupConsec (sortStrings _)).Nodup
    exact nodup_dedupConsec (pairwise_sortStrings _)
  · intro r h
    unfold validate_fs at h
    by_cases hE : fsc.paths.isEmpty = true
    · simp [hE] at h
    · rw [if_neg hE] at h
      rcases hF : fsc.paths.find? (fun p => !(w.pathExists p)) with _ | p
      · rw [hF] at h
        by_cases hFiles : (find_files w fsc).isEmpty = true
        · rw [if_pos hFiles] at h
          simp only [Except.ok.injEq] at h
          subst h
          rw [List.isEmpty_iff.mp hFiles]
          rfl
        · rw [if_neg hFiles] at h
          simp only [Except.ok.injEq] at h
          subst h
          show (List.foldl (validate_step w fsc vc) (0, []) (find_files w fsc)).2 = _
          rw [validate_loop_spec]
          simp
      · rw [hF] at h
        simp at h

/-! ## YAML fallback and skip-rule theorems -/

/-- C1: when the whole-stream YAML parse fails, `scan_yaml_content` falls
back to per-document parsing: the result is exactly the in-order
concatenation over the split segments, where a segment that fails to parse
contributes nothing (and in particular does not abort its siblings) and
every segment that parses is walked. -/
theorem yaml_fallback_isolates_documents (w : World) (content path : String)
    (vendor : Option String) (sk : Bool)
    (hfail : w.parseYamlMulti content = none) :
    scan_yaml_content w content path vendor sk
      = (split_yaml_documents content).flatMap (fun seg =>
          match w.parseYamlOne seg with
          | none => []
          | some value => w.walkValue value path vendor "$" sk) := by
  unfold scan_yaml_content
  rw [hfail, yaml_fold_spec]
  simp

/-- C2 (amended): skipped files — unreadable, oversized, or without a
matching scanner — contribute neither errors nor a scanned-count increment;
the report's count and error list are exactly the per-file aggregation; but
a readable YAML file whose whole-stream parse fails, with every fallback
segment failing too, contributes no error yet IS counted as scanned. -/
theorem skip_rules_amended (w : World) (fsc : FsSourceConfig) (vc : ValidationConfig) :
    (∀ f, read_validation_item w f fsc.max_file_size = none →
        should_scan w fsc f = false ∧ file_scan_errors w fsc vc f = [])
    ∧ (∀ f, content_format_for f = none →
        should_scan w fsc f = false ∧ file_scan_errors w fsc vc f = [])
    ∧ (∀ r, validate_fs w fsc vc = .ok r →
        r.files_scanned = (find_files w fsc).countP (should_scan w fsc)
        ∧ r.errors = (find_files w fsc).flatMap (file_scan_errors w fsc vc))
    ∧ (∀ f item, read_validation_item w f fsc.max_file_size = some item →
        content_format_for f = some .yaml →
        w.parseYamlMulti item.content = none →
        (∀ seg ∈ split_yaml_documents item.content, w.parseYamlOne seg = none) →
        should_scan w fsc f = true ∧ file_scan_errors w fsc vc f = []) := by
  refine ⟨?_, ?_, ?_, ?_⟩
  · intro f hr
    exact ⟨by simp [should_scan, hr], by simp [file_scan_errors, hr]⟩
  · intro f hf
    constructor
    · simp [should_scan, hf]
    · unfold file_scan_errors
      rcases hr : read_validation_item w f fsc.max_file_size with _ | item
      · rfl
      · rw [hf]
  · intro r h
    unfold validate_fs at h
    by_cases hE : fsc.paths.isEmpty = true
    · simp [hE] at h
    · rw [if_neg hE] at h
      rcases hF : fsc.paths.find? (fun p => !(w.pathExists p)) with _ | p
      · rw [hF] at h
        by_cases hFiles : (find_files w fsc).isEmpty = true
        · rw [if_pos hFiles] at h
          simp only [Except.ok.injEq] at h
          subst h
          rw [List.isEmpty_iff.mp hFiles]
          exact ⟨rfl, rfl⟩
        · rw [if_neg hFiles] at h
          simp only [Except.ok.injEq] at h
          subst h
          constructor
          · show (List.foldl (validate_step w fsc vc) (0, []) (find_files w fsc)).1 = _
            rw [validate_loop_spec]
            simp
          · show (List.foldl (validate_step w fsc vc) (0, []) (find_files w fsc)).2 = _
            rw [validate_loop_spec]
            simp
      · rw [hF] at h
        simp at h
  · intro f item hr hf hmulti hsegs
    refine ⟨by simp [should_scan, hr, hf], ?_⟩
    unfold file_scan_errors
    rw [hr, hf]
    show scan_yaml_content w item.content f vc.vendor vc.scan_keys = []
    unfold scan_yaml_content
    rw [hmulti, yaml_fold_spec]
    simp only [List.nil_append]
    have : ∀ segs : List String, (∀ seg ∈ segs, w.parseYamlOne seg = none) →
        segs.flatMap (fun seg =>
          match w.parseYamlOne seg with
          | none => []
          | some value => w.walkValue value f vc.vendor "$" vc.scan_keys) = [] := by
      intro segs
      induction segs with
      | nil => intro _; rfl
      | cons s t ih =>
        intro hall
        rw [List.flatMap_cons, hall s (List.mem_cons_self s t)]
        exact ih (fun seg hseg => hall seg (List.mem_cons_of_mem s hseg))
    exact this _ hsegs

/-! ## Grammar and walker theorems -/

/-- C3: a `gts.`-prefixed candidate that is not well-formed (such as one
containing a hyphen) is not discovered and produces no error in
StrictSpecOnly mode, while Heuristic mode discovers it as malformed and
reports it, under every vendor policy. -/
theorem malformed_token_mode_contrast (vp : VendorPolicy) (loc : String) (s : String)
    (hpre : gtsDotPrefixed s = true) (hmal : is_well_formed s = false) :
    classify s .StrictSpecOnly = none
    ∧ errors_for_candidate .StrictSpecOnly vp loc s = []
    ∧ classify s .Heuristic = some .malformed
    ∧ errors_for_candidate .Heuristic vp loc s ≠ [] := by
  have hne : (s == "*") = false := by
    by_cases h : s = "*"
    · subst h
      simp [gtsDotPrefixed, List.isPrefixOf] at hpre
    · simp [h]
  have hstrict : classify s .StrictSpecOnly = none := by
    unfold classify
    rw [hne]
    simp [hmal]
  have hheur : classify s .Heuristic = some .malformed := by
    unfold classify
    rw [hne]
    simp [hmal, hpre]
  refine ⟨hstrict, ?_, hheur, ?_⟩
  · unfold errors_for_candidate
    rw [hstrict]
  · unfold errors_for_candidate
    rw [hheur]
    simp

/-- C4: an object entry whose key is literally `x-gts-ref` and whose value
is a wildcard string contributes no validation error — the walk of the rest
of the object is unchanged — and the two spec documents
`x-gts-ref: "*"` and `x-gts-ref: gts.x.core.*` walk to no errors, for every
discovery mode, vendor policy and key-scanning setting. -/
theorem xgts_ref_wildcard_exempt (m : DiscoveryMode) (vp : VendorPolicy) (sk : Bool)
    (jp : String) (rest : List (String × JValue)) (v : JValue)
    (hwild : wildcard_value v = true) :
    walk_obj m vp sk jp (("x-gts-ref", v) :: rest) = walk_obj m vp sk jp rest
    ∧ walk_json_value m vp sk "$" (.obj [("x-gts-ref", .str "*")]) = []
    ∧ walk_json_value m vp sk "$" (.obj [("x-gts-ref", .str "gts.x.core.*")]) = [] := by
  have hkey : ∀ loc, errors_for_candidate m vp loc "x-gts-ref" = [] := by
    intro loc
    cases m <;> rfl
  have hmain : ∀ (jp' : String) (rest' : List (String × JValue)) (v' : JValue),
      wildcard_value v' = true →
      walk_obj m vp sk jp' (("x-gts-ref", v') :: rest') = walk_obj m vp sk jp' rest' := by
    intro jp' rest' v' hw
    rw [walk_obj]
    have hcond : (("x-gts-ref" : String) == "x-gts-ref" && wildcard_value v') = true := by
      simp [hw]
    rw [hcond]
    simp only [if_true]
    cases sk
    · simp
    · rw [if_pos rfl, hkey]
      simp
  refine ⟨hmain jp rest v hwild, ?_, ?_⟩
  · rw [walk_json_value, hmain "$" [] (.str "*") (by decide)]
    rfl
  · rw [walk_json_value, hmain "$" [] (.str "gts.x.core.*") (by decide)]
    rfl

/-! ## Concrete instances -/

/-- Default-style validation config: no vendor, no key scan, non-strict. -/
def vc0 : ValidationConfig := ⟨none, false, false, []⟩

/-- A world with no files at all: every path exists, nothing is a file or a
directory. -/
def w0 : World :=
  ⟨fun _ => true, fun _ => false, fun _ => false, fun _ => [], fun _ => none,
   fun _ => none, fun _ => none, fun _ => none, fun _ => none,
   fun _ _ _ _ _ => [], fun _ _ _ _ _ => [], fun _ _ _ _ => []⟩

/-- A source config over the single path `p`. -/
def fsc0 : FsSourceConfig := ⟨["p"], [], 10485760, true⟩

/-- A sample error, as produced by the markdown scanner of `w1`. -/
def e1 : ValidationError := ⟨"d/x.md", none, "vendor_mismatch", "m", "s"⟩

/-- A world with one markdown file `d/x.md` under directory `d` whose scan
reports `e1`. -/
def w1 : World :=
  ⟨fun _ => true, fun p => p == "d/x.md", fun p => p == "d", fun _ => ["d/x.md"],
   fun _ => none, fun _ => none,
   fun p => if p == "d/x.md" then some "content" else none,
   fun _ => none, fun _ => none,
   fun _ _ _ _ _ => [], fun _ _ _ _ _ => [e1], fun _ _ _ _ => []⟩

/-- A source config over the single directory `d`. -/
def fsc1 : FsSourceConfig := ⟨["d"], [], 10485760, true⟩

/-- A sample error, as produced by the tree walk of `w2`. -/
def e2 : ValidationError := ⟨"multi.yaml", some "$", "vendor_mismatch", "m", "s"⟩

/-- A world whose whole-stream YAML parse always fails, whose per-document
parse fails exactly on the middle document of `c2`, and whose walk reports
`e2` for every document. -/
def w2 : World :=
  ⟨fun _ => true, fun _ => false, fun _ => false, fun _ => [], fun _ => none,
   fun _ => none, fun _ => none, fun _ => none,
   fun s => if s == "invalid: yaml: syntax:" then none else some .null,
   fun _ _ _ _ _ => [e2], fun _ _ _ _ _ => [], fun _ _ _ _ => []⟩

/-- A three-document YAML stream whose middle document is malformed. -/
def c2 : String := "x: 1\n---\ninvalid: yaml: syntax:\n---\ny: 2"

/-- A world with one YAML file `d/a.yaml` whose content fails the
whole-stream parse and every fallback segment parse. -/
def cxWorld : World :=
  ⟨fun _ => true, fun p => p == "d/a.yaml", fun p => p == "d", fun _ => ["d/a.yaml"],
   fun _ => none, fun _ => some 10,
   fun p => if p == "d/a.yaml" then some "invalid: yaml: syntax:" else none,
   fun _ => none, fun _ => none,
   fun _ _ _ _ _ => [], fun _ _ _ _ _ => [], fun _ _ _ _ => []⟩

/-! ## Witnesses and counterexamples -/

/-- C1 witness: on the concrete stream `c2` in world `w2` the fallback path
yields exactly the two sibling documents' errors, the malformed middle
document contributing nothing. -/
theorem yaml_fallback_isolates_documents_witness :
    scan_yaml_content w2 c2 "multi.yaml" (some "x") false = [e2, e2] :=
  (yaml_fallback_isolates_documents w2 c2 "multi.yaml" (some "x") false rfl).trans
    (by rfl)

/-- C2 counterexample: a readable, small YAML file whose content fails the
whole-stream parse and every fallback segment parse is nevertheless counted
as scanned (`files_scanned = 1`), contradicting the claim that such a file
does not increment the scanned-files count. -/
theorem parse_failed_yaml_counted_counterexample :
    validate_fs cxWorld fsc1 vc0 = .ok ⟨1, 0, true, []⟩
    ∧ read_validation_item cxWorld "d/a.yaml" fsc1.max_file_size
        = some ⟨"invalid: yaml: syntax:"⟩
    ∧ content_format_for "d/a.yaml" = some .yaml
    ∧ cxWorld.parseYamlMulti "invalid: yaml: syntax:" = none
    ∧ (∀ seg ∈ split_yaml_documents "invalid: yaml: syntax:",
        cxWorld.parseYamlOne seg = none) := by
  refine ⟨by rfl, by rfl, by rfl, rfl, ?_⟩
  intro seg _
  rfl

/-- C2 witness (for the amended statement): in the counterexample world the
parse-failed YAML file satisfies the amended rule — counted as scanned, no
errors. -/
theorem skip_rules_amended_witness :
    should_scan cxWorld fsc1 "d/a.yaml" = true
    ∧ file_scan_errors cxWorld fsc1 vc0 "d/a.yaml" = [] :=
  (skip_rules_amended cxWorld fsc1 vc0).2.2.2 "d/a.yaml" ⟨"invalid: yaml: syntax:"⟩
    (by rfl) (by rfl) rfl (fun seg _ => rfl)

/-- C3 witness: the spec's example token `gts.my-vendor.core.events.type.v1~`
is `gts.`-prefixed yet not well-formed; StrictSpecOnly ignores it,
Heuristic reports it. -/
theorem malformed_token_mode_contrast_witness :
    gtsDotPrefixed "gts.my-vendor.core.events.type.v1~" = true
    ∧ is_well_formed "gts.my-vendor.core.events.type.v1~" = false
    ∧ classify "gts.my-vendor.core.events.type.v1~" .StrictSpecOnly = none
    ∧ errors_for_candidate .StrictSpecOnly .Any "$"
        "gts.my-vendor.core.events.type.v1~" = []
    ∧ classify "gts.my-vendor.core.events.type.v1~" .Heuristic = some .malformed
    ∧ errors_for_candidate .Heuristic .Any "$"
        "gts.my-vendor.core.events.type.v1~" ≠ [] := by
  have h := malformed_token_mode_contrast .Any "$"
    "gts.my-vendor.core.events.type.v1~" (by decide) (by decide)
  exact ⟨by decide, by decide, h.1, h.2.1, h.2.2.1, h.2.2.2⟩

/-- C4 witness: instantiated at Heuristic mode, a `MustMatch` policy and
key scanning enabled, with the bare `*` value. -/
theorem xgts_ref_wildcard_exempt_witness :
    walk_obj .Heuristic (.MustMatch "x") true "$" [("x-gts-ref", .str "*")]
      = walk_obj .Heuristic (.MustMatch "x") true "$" []
    ∧ walk_json_value .Heuristic (.MustMatch "x") true "$"
        (.obj [("x-gts-ref", .str "*")]) = []
    ∧ walk_json_value .Heuristic (.MustMatch "x") true "$"
        (.obj [("x-gts-ref", .str "gts.x.core.*")]) = [] :=
  xgts_ref_wildcard_exempt .Heuristic (.MustMatch "x") true "$" [] (.str "*")
    (by decide)

/-- C6 witness: the report of the empty run in world `w0`. -/
theorem report_counts_consistent_witness :
    (ValidationReport.mk 0 0 true []).errors_count
        = (ValidationReport.mk 0 0 true []).errors.length
    ∧ (ValidationReport.mk 0 0 true []).ok
        = (ValidationReport.mk 0 0 true []).errors.isEmpty
    ∧ ((ValidationReport.mk 0 0 true []).errors ≠ []
        → (ValidationReport.mk 0 0 true []).ok = false) :=
  report_counts_consistent w0 fsc0 vc0 ⟨0, 0, true, []⟩ (by rfl)

/-- C7 witness: in world `w1` the single markdown file's error list is the
report's error list. -/
theorem files_sorted_errors_in_order_witness :
    (ValidationReport.mk 1 1 false [e1]).errors
      = (find_files w1 fsc1).flatMap (file_scan_errors w1 fsc1 vc0) :=
  (files_sorted_errors_in_order w1 fsc1 vc0).2.2 ⟨1, 1, false, [e1]⟩ (by rfl)

/-- C10 witness: world `w0` has existing paths but no scannable files. -/
theorem empty_scan_ok_report_witness :
    validate_fs w0 fsc0 vc0 = .ok ⟨0, 0, true, []⟩ :=
  empty_scan_ok_report w0 fsc0 vc0 (by decide)
    (fun _ _ => rfl) (by rfl)

end Gts
